import Mathlib

/-!
Verification of the DART-69 prime scripts.

This file gives a shallow embedding of the computational kernels of the
repository's Python scripts and proves (or refutes) the frozen claims about
them:

* the sieve of Eratosthenes of `prime_verification_for_Trinity.py`
  (`_sieve_of_eratosthenes`) and `trinity_grouping_analysis.py`
  (`sieve_of_eratosthenes`), which are textually identical;
* the trial-division fallback `is_prime_fast` of `dart69_prime_checker.py`
  (textually identical to `_trial_division` of
  `prime_verification_for_Trinity.py`);
* the table-backed query `PrimeVerificationSuite.is_prime`;
* the residue-class classifier of the specification, instantiated in the
  sources as `get_dart69_position` / `DART69_FORBIDDEN`;
* the `scan_range` pipeline of the specification;
* `DART69Sieve.dart69_filter`, `DART69Sieve.is_prime_basic` and
  `DART69Sieve.sieve_dimension` of `dart69_python_sieve (1).py`;
* the two `dart69_precheck` variants of `dart69_prime_checker.py` and
  `Prime Checker 2 DART_69_Optimized.py`.

The sieve array is modelled as a function `Nat → Bool` (index `k` of the
Python boolean list); each inner strike loop becomes one functional update.
-/

/-- Largest `b ≤ a` with `b * b ≤ n` (and `0` when `a = 0`). -/
def isqrtGo (n : Nat) : Nat → Nat
  | 0 => 0
  | a + 1 => if (a + 1) * (a + 1) ≤ n then a + 1 else isqrtGo n a

/-- Integer square root `⌊√n⌋`, the value Python's `int(math.sqrt(n))` and
`int(n**0.5)` produce on the scripts' inputs, written as a structural
search so that concrete instances reduce inside the kernel. -/
def isqrt (n : Nat) : Nat := isqrtGo n n

/-- Initial sieve state of `_sieve_of_eratosthenes`: the Python list
`[True] * (n + 1)` followed by `sieve[0] = sieve[1] = False`.  Index `k`
holds `true` exactly when `2 ≤ k ≤ n`; indices outside the list are read
as `false`. -/
def sieveInit (n : Nat) : Nat → Bool :=
  fun k => decide (2 ≤ k ∧ k ≤ n)

/-- One inner loop `for j in range(i*i, n + 1, i): sieve[j] = False` of
`_sieve_of_eratosthenes`: since `i` divides `i*i`, the indices struck are
exactly the multiples of `i` in `[i*i, n]`. -/
def strike (n i : Nat) (s : Nat → Bool) : Nat → Bool :=
  fun k => if i * i ≤ k ∧ k ≤ n ∧ k % i = 0 then false else s k

/-- One iteration of the outer loop of `_sieve_of_eratosthenes`:
`if sieve[i]: strike the multiples of i from i*i`. -/
def sieveStep (n : Nat) (s : Nat → Bool) (i : Nat) : Nat → Bool :=
  if s i then strike n i s else s

/-- The fully built sieve array of `_sieve_of_eratosthenes` for bound `n`:
the outer loop runs over `i` in `range(2, int(n**0.5) + 1)`, that is over
`[2, …, Nat.sqrt n]`. -/
def sieveArray (n : Nat) : Nat → Bool :=
  (List.range' 2 (isqrt n - 1)).foldl (sieveStep n) (sieveInit n)

/-- The primality table of the specification's `build_sieve`: for `n < 2`
the source returns the empty prime list without building an array, so every
index reads `false`; otherwise index `k` is the sieve array entry. -/
def build_sieve (n : Nat) : Nat → Bool :=
  if n < 2 then fun _ => false else sieveArray n

/-- Return value of `_sieve_of_eratosthenes(n)` (and of the identical
`sieve_of_eratosthenes` in `trinity_grouping_analysis.py`): the guard
`if n < 2: return []`, then `[i for i in range(2, n + 1) if sieve[i]]`. -/
def sieve_of_eratosthenes (n : Nat) : List Nat :=
  if n < 2 then [] else (List.range' 2 (n - 1)).filter (fun i => sieveArray n i)

/-- Fallback branch of `is_prime_fast` in `dart69_prime_checker.py`, textually
identical to `_trial_division` in `prime_verification_for_Trinity.py`:
fail on `n < 2`, accept `2`, reject even `n`, then try the odd candidates
`range(3, int(math.sqrt(n)) + 1, 2)`, i.e. `3, 5, …` up to `Nat.sqrt n`. -/
def trial_division (n : Nat) : Bool :=
  if n < 2 then false
  else if n = 2 then true
  else if n % 2 = 0 then false
  else (List.range' 3 ((isqrt n - 1) / 2) 2).all (fun i => decide (n % i ≠ 0))

/-- Query `PrimeVerificationSuite.is_prime` of
`prime_verification_for_Trinity.py`: membership in the precomputed prime set
when `n ≤ max_n`, otherwise `_trial_division(n)` (the same loop as
`trial_division` above).  The method accepts any integer; no input check or
error path exists in the source. -/
def PrimeVerificationSuite.is_prime (max_n : Nat) (n : Int) : Bool :=
  if n ≤ (max_n : Int) then (sieve_of_eratosthenes max_n).any (fun p => (p : Int) == n)
  else trial_division n.toNat

/-- Classification outcome of the specification's Residue-Class Classifier:
`Candidate`, or `Excluded r` carrying the offending residue. -/
inductive ClassificationResult where
  | Candidate : ClassificationResult
  | Excluded : Int → ClassificationResult
deriving DecidableEq

/-- Modelled from the spec: the configurable `ResidueFilter` of §3.  The
sources hard-wire the single instance `modulus = 69` with the forbidden
positions `DART69_FORBIDDEN` (`Prime Checker 2 DART_69_Optimized.py`) or the
predicate `pos % 3 == 0` (`dart69_prime_checker.py`). -/
structure ResidueFilter where
  modulus : Int
  forbidden : List Int

/-- Validity invariant of §3: positive modulus, forbidden residues inside
`[0, modulus)`. -/
def ResidueFilter.Valid (f : ResidueFilter) : Prop :=
  0 < f.modulus ∧ ∀ r ∈ f.forbidden, 0 ≤ r ∧ r < f.modulus

instance (f : ResidueFilter) : Decidable f.Valid :=
  inferInstanceAs (Decidable (_ ∧ _))

/-- Modelled from the spec: `classify(n, filter)` of §4.2 — compute the
non-negative remainder `r = n mod modulus` (Python `%` on a positive
modulus, i.e. `Int.emod`) and return `Excluded(r)` exactly on forbidden
residues; the source instance is `get_dart69_position` /
`is_forbidden_position`. -/
def classify (n : Int) (f : ResidueFilter) : ClassificationResult :=
  if n % f.modulus ∈ f.forbidden then ClassificationResult.Excluded (n % f.modulus)
  else ClassificationResult.Candidate

/-- The `get_dart69_position` function of `dart69_prime_checker.py`:
`int(n) % 69`, Python's non-negative remainder. -/
def get_dart69_position (n : Int) : Int := n % 69

/-- Modelled from the spec: the scanning pipeline of §4.3 — for each `n` in
`[low, high]` apply the classifier and, on `Candidate`, the exact
single-number primality test (`trial_division`); collect the survivors in
ascending order.  The sources realise instances of this pipeline in
`DART69Sieve.sieve_dimension` and `generate_primes_by_formula`. -/
def scan_range (low high : Nat) (f : ResidueFilter) : List Nat :=
  (List.range' low (high + 1 - low)).filter
    (fun n => decide (classify (n : Int) f = ClassificationResult.Candidate)
      && trial_division n)

/-- The `DART69Sieve.dart69_filter` of `dart69_python_sieve (1).py`: the
angular filter on the sector `n % 69` (reject sectors divisible by 3 or by
23, exempting the numbers 3 and 23 themselves), then the last-digit filter
`n % 10 in (1, 3, 7, 9)`. -/
def dart69_filter (n : Nat) : Bool :=
  if (n % 69 % 3 == 0 || n % 69 % 23 == 0) && !(n == 3 || n == 23) then false
  else n % 10 == 1 || n % 10 == 3 || n % 10 == 7 || n % 10 == 9

/-- The `DART69Sieve.is_prime_basic` of `dart69_python_sieve (1).py`: trial
division with the 6k±1 optimisation; the loop runs over
`range(5, int(math.sqrt(n)) + 1, 6)` testing `i` and `i + 2`. -/
def is_prime_basic (n : Nat) : Bool :=
  if n < 2 then false
  else if n == 2 then true
  else if n % 2 == 0 then false
  else if n < 9 then true
  else if n % 3 == 0 then false
  else (List.range' 5 ((isqrt n + 1) / 6) 6).all
    (fun i => decide (n % i ≠ 0) && decide (n % (i + 2) ≠ 0))

/-- The main loop of `DART69Sieve.sieve_dimension` over an inclusive range
`[start, stop]`: collect every `n` passing `dart69_filter` for which the
primality test holds (here the non-gmpy2 engine `is_prime_basic`).  The
π-power dimension bounds produced by `get_dimension_range` enter only as
the pair `(start, stop)`, so properties proved for every range hold for
every dimension. -/
def sieve_dimension (start stop : Nat) : List Nat :=
  (List.range' start (stop + 1 - start)).filter
    (fun n => dart69_filter n && is_prime_basic n)

/-- Exact numerator of the binary64 value of Python's `math.pi`:
`math.pi = 884279719003555 / 2^48`. -/
def pi_num : Nat := 884279719003555

/-- Modelled from the source's floating-point arithmetic:
`math.floor(pi ** d)` with the binary64 π value, the power computed exactly
over the dyadic rationals; for the small exponents appearing below this
agrees with the scripts' floating-point evaluation. -/
def pi_pow_floor (d : Nat) : Nat := pi_num ^ d >>> (48 * d)

/-- The dimension search loop of `get_dimension_for_number` (identical in
`dart69_prime_checker.py` and `Prime Checker 2 DART_69_Optimized.py`):
starting at `d = 1`, return the first `d` with `n ≤ floor(π^d)`; past
`d = 100` the loop gives up and returns `d + 1`.  The fuel argument makes
the recursion structural; the caller supplies enough fuel for the
`d > 100` guard to fire first. -/
def dim_loop (n : Nat) : Nat → Nat → Nat
  | d, 0 => d
  | d, fuel + 1 =>
    if n ≤ pi_pow_floor d then d
    else if 100 < d + 1 then d + 1
    else dim_loop n (d + 1) fuel

/-- `get_dimension_for_number(n)` of both checkers: `0` for `n ≤ 1`,
otherwise the search loop from `d = 1`. -/
def get_dimension_for_number (n : Nat) : Nat :=
  if n ≤ 1 then 0 else dim_loop n 1 101

/-- `is_forbidden_position(pos, allow_early_exceptions)` of
`dart69_prime_checker.py`: multiples of 3 are forbidden, except that
positions 3 and 23 are allowed when exceptions are enabled. -/
def is_forbidden_position (pos : Nat) (allow : Bool) : Bool :=
  if pos % 3 == 0 then
    if allow && (pos == 3 || pos == 23) then false else true
  else false

/-- Could-be-prime verdict of `dart69_precheck` in
`dart69_prime_checker.py`: special cases for `n < 2`, `2`, `3` and even
`n`; otherwise the absolute wheel position `n % 69`, with the early
exceptions enabled exactly in π-dimension `≤ 3`. -/
def dart69_precheck (n : Nat) : Bool :=
  if n < 2 then false
  else if n == 2 then true
  else if n == 3 then true
  else if n % 2 == 0 then false
  else !(is_forbidden_position (n % 69) (decide (get_dimension_for_number n ≤ 3)))

/-- The lookup table `DART69_FORBIDDEN` of the optimized checker: the
positions in `range(69)` divisible by 3 or by 23. -/
def DART69_FORBIDDEN : List Int :=
  ((List.range 69).filter (fun i => i % 3 == 0 || i % 23 == 0)).map (fun i => (i : Int))

/-- `get_dart69_position(n)` of `Prime Checker 2 DART_69_Optimized.py`:
the position of `n` relative to its dimension start
`floor(π^(d-1)) + 1`, reduced modulo 69 with Python's non-negative
remainder (computed over `Int`). -/
def get_dart69_position_dimensional (n : Nat) : Int :=
  ((n : Int) - ((pi_pow_floor (get_dimension_for_number n - 1) : Int) + 1)) % 69

/-- Could-be-prime verdict of `dart69_precheck` in the optimized checker:
forbidden exactly when the dimensional position lies in
`DART69_FORBIDDEN`. -/
def dart69_precheck_optimized (n : Nat) : Bool :=
  !(DART69_FORBIDDEN.contains (get_dart69_position_dimensional n))

lemma isqrtGo_sq_le (n a : Nat) : isqrtGo n a * isqrtGo n a ≤ n := by
  induction a with
  | zero => simp [isqrtGo]
  | succ a ih =>
    simp only [isqrtGo]
    by_cases hc : (a + 1) * (a + 1) ≤ n
    · rw [if_pos hc]
      exact hc
    · rw [if_neg hc]
      exact ih

lemma lt_succ_isqrtGo (n : Nat) :
    ∀ a, n < (a + 1) * (a + 1) → n < (isqrtGo n a + 1) * (isqrtGo n a + 1) := by
  intro a
  induction a with
  | zero =>
    intro h
    simpa [isqrtGo] using h
  | succ a ih =>
    intro h
    simp only [isqrtGo]
    by_cases hc : (a + 1) * (a + 1) ≤ n
    · rw [if_pos hc]
      exact h
    · rw [if_neg hc]
      exact ih (Nat.not_le.mp hc)

/-- The structural integer square root agrees with Mathlib's `Nat.sqrt`. -/
lemma isqrt_eq_sqrt (n : Nat) : isqrt n = Nat.sqrt n := by
  have h : n < (n + 1) * (n + 1) := by
    calc n < n + 1 := Nat.lt_succ_self n
      _ = (n + 1) * 1 := (Nat.mul_one _).symm
      _ ≤ (n + 1) * (n + 1) := Nat.mul_le_mul (le_refl _) (by omega)
  exact Nat.eq_sqrt.mpr ⟨isqrtGo_sq_le n n, lt_succ_isqrtGo n n h⟩

/-- Loop invariant of the outer sieve loop: after processing
`i = 2, …, 2 + t - 1`, index `k ≤ n` is still marked exactly when `2 ≤ k`
and no divisor `d` of `k` with `2 ≤ d < 2 + t` satisfies `d * d ≤ k`. -/
lemma sieve_fold_spec (n : Nat) :
    ∀ t, t + 1 ≤ n → ∀ k, k ≤ n →
      ((List.range' 2 t).foldl (sieveStep n) (sieveInit n) k = true ↔
        2 ≤ k ∧ ∀ d, 2 ≤ d → d < 2 + t → k % d = 0 → k < d * d) := by
  intro t
  induction t with
  | zero =>
    intro _ k hk
    simp only [List.range'_zero, List.foldl_nil, sieveInit, decide_eq_true_eq]
    constructor
    · rintro ⟨h2, -⟩
      exact ⟨h2, fun d hd hd2 => absurd hd2 (Nat.not_lt.mpr hd)⟩
    · rintro ⟨h2, -⟩
      exact ⟨h2, hk⟩
  | succ t ih =>
    intro ht k hk
    have ih' := ih (by omega)
    rw [List.range'_1_concat, List.foldl_append, List.foldl_cons, List.foldl_nil]
    set s : Nat → Bool := (List.range' 2 t).foldl (sieveStep n) (sieveInit n) with hs
    by_cases hsi : s (2 + t) = true
    · -- the source strikes the multiples of `2 + t` starting at `(2 + t)²`
      rw [sieveStep, if_pos hsi, strike]
      by_cases hc : (2 + t) * (2 + t) ≤ k ∧ k ≤ n ∧ k % (2 + t) = 0
      · rw [if_pos hc]
        simp only [Bool.false_eq_true, false_iff]
        rintro ⟨h2, hall⟩
        have := hall (2 + t) (by omega) (by omega) hc.2.2
        exact absurd (lt_of_le_of_lt hc.1 this) (lt_irrefl _)
      · rw [if_neg hc, ih' k hk]
        constructor
        · rintro ⟨h2, hall⟩
          refine ⟨h2, fun d hd hdlt hdmod => ?_⟩
          rcases Nat.lt_or_ge d (2 + t) with hlt | hge
          · exact hall d hd hlt hdmod
          · have hde : d = 2 + t := by omega
            subst hde
            rcases Nat.lt_or_ge k ((2 + t) * (2 + t)) with hk2 | hk2
            · exact hk2
            · exact absurd ⟨hk2, hk, hdmod⟩ hc
        · rintro ⟨h2, hall⟩
          exact ⟨h2, fun d hd hdlt hdmod => hall d hd (by omega) hdmod⟩
    · -- `sieve[2 + t]` is already false: a smaller divisor witnesses every strike
      rw [sieveStep, if_neg hsi, ih' k hk]
      constructor
      · rintro ⟨h2, hall⟩
        refine ⟨h2, fun d hd hdlt hdmod => ?_⟩
        rcases Nat.lt_or_ge d (2 + t) with hlt | hge
        · exact hall d hd hlt hdmod
        · have hde : d = 2 + t := by omega
          subst hde
          have hi := ih' (2 + t) (by omega)
          rw [hi] at hsi
          have hne : ¬ (2 ≤ 2 + t ∧
              ∀ e, 2 ≤ e → e < 2 + t → (2 + t) % e = 0 → 2 + t < e * e) := hsi
          push_neg at hne
          obtain ⟨e, he2, helt, hemod, hesq⟩ := hne (by omega)
          have hesq' : e * e ≤ 2 + t := hesq
          have hdvd1 : e ∣ 2 + t := Nat.dvd_of_mod_eq_zero hemod
          have hdvd2 : 2 + t ∣ k := Nat.dvd_of_mod_eq_zero hdmod
          have hkmode : k % e = 0 := Nat.mod_eq_zero_of_dvd (dvd_trans hdvd1 hdvd2)
          have hklt : k < e * e := hall e he2 helt hkmode
          have hkltd : k < 2 + t := lt_of_lt_of_le hklt hesq'
          have hzero : k = 0 := (Nat.mod_eq_of_lt hkltd).symm.trans hdmod
          omega
      · rintro ⟨h2, hall⟩
        exact ⟨h2, fun d hd hdlt hdmod => hall d hd (by omega) hdmod⟩

/-- The sieve array after the full outer loop marks exactly the primes among
the indices `0, …, n`. -/
lemma sieveArray_eq_prime (n : Nat) (hn : 2 ≤ n) (k : Nat) (hk : k ≤ n) :
    sieveArray n k = true ↔ Nat.Prime k := by
  have hsq1 : 1 ≤ Nat.sqrt n := Nat.sqrt_pos.mpr (by omega)
  have hsqn : Nat.sqrt n ≤ n := Nat.sqrt_le_self n
  have hspec := sieve_fold_spec n (Nat.sqrt n - 1) (by omega) k hk
  rw [sieveArray, isqrt_eq_sqrt, hspec]
  constructor
  · rintro ⟨h2, hall⟩
    by_contra hnp
    have hpf : Nat.minFac k ^ 2 ≤ k := Nat.minFac_sq_le_self (by omega) hnp
    have hpf' : Nat.minFac k * Nat.minFac k ≤ k := by
      calc Nat.minFac k * Nat.minFac k = Nat.minFac k ^ 2 := (pow_two _).symm
        _ ≤ k := hpf
    have hp : (Nat.minFac k).Prime := Nat.minFac_prime (by omega)
    have h2p : 2 ≤ Nat.minFac k := hp.two_le
    have hle : Nat.minFac k ≤ Nat.sqrt n :=
      Nat.le_sqrt.mpr (le_trans hpf' hk)
    have hmod : k % Nat.minFac k = 0 := Nat.mod_eq_zero_of_dvd (Nat.minFac_dvd k)
    have hlt := hall (Nat.minFac k) h2p (by omega) hmod
    exact absurd (lt_of_le_of_lt hpf' hlt) (lt_irrefl _)
  · intro hp
    refine ⟨hp.two_le, fun d hd2 hdlt hdmod => ?_⟩
    rcases hp.eq_one_or_self_of_dvd d (Nat.dvd_of_mod_eq_zero hdmod) with h1 | hself
    · omega
    · subst hself
      have h2d : 2 ≤ d := hd2
      have : d * 2 ≤ d * d := Nat.mul_le_mul (le_refl d) h2d
      omega

/-- Membership in the returned prime list. -/
lemma mem_sieve_list (n p : Nat) :
    p ∈ sieve_of_eratosthenes n ↔ 2 ≤ p ∧ p ≤ n ∧ p.Prime := by
  rw [sieve_of_eratosthenes]
  by_cases hn : n < 2
  · rw [if_pos hn]
    simp only [List.not_mem_nil, false_iff]
    rintro ⟨h2, hpn, -⟩
    omega
  · rw [if_neg hn]
    simp only [List.mem_filter, List.mem_range'_1]
    constructor
    · rintro ⟨⟨h2, hlt⟩, hs⟩
      have hpn : p ≤ n := by omega
      exact ⟨h2, hpn, (sieveArray_eq_prime n (by omega) p hpn).mp hs⟩
    · rintro ⟨h2, hpn, hp⟩
      exact ⟨⟨h2, by omega⟩, (sieveArray_eq_prime n (by omega) p hpn).mpr hp⟩

/-- C1: for every `n ≥ 0`, the sieve built by `build_sieve(n)` (the classical
sieve of Eratosthenes of `_sieve_of_eratosthenes` /
`sieve_of_eratosthenes`) marks index `k` as prime if and only if `k` is a
prime number, for every `k` in `[0, n]`. -/
theorem build_sieve_marks_exactly_primes (n k : Nat) (hk : k ≤ n) :
    build_sieve n k = true ↔ Nat.Prime k := by
  by_cases hn : n < 2
  · rw [build_sieve, if_pos hn]
    simp only [Bool.false_eq_true, false_iff]
    intro hp
    have := hp.two_le
    omega
  · rw [build_sieve, if_neg hn]
    exact sieveArray_eq_prime n (by omega) k hk

/-- Witness for C1 at `n = 10`, `k = 7`. -/
theorem build_sieve_marks_exactly_primes_witness :
    7 ≤ 10 ∧ (build_sieve 10 7 = true ↔ Nat.Prime 7) :=
  ⟨by decide, build_sieve_marks_exactly_primes 10 7 (by decide)⟩

/-- The odd-candidate loop of `trial_division` checks exactly the odd numbers
in `[3, Nat.sqrt n]`. -/
lemma trial_all_iff (n : Nat) :
    ((List.range' 3 ((Nat.sqrt n - 1) / 2) 2).all (fun i => decide (n % i ≠ 0)) = true) ↔
      ∀ d, d % 2 = 1 → 3 ≤ d → d ≤ Nat.sqrt n → ¬ d ∣ n := by
  rw [List.all_eq_true]
  constructor
  · intro hall d hodd h3 hle hdvd
    have hj : (d - 3) / 2 < (Nat.sqrt n - 1) / 2 := by omega
    have hmem : d ∈ List.range' 3 ((Nat.sqrt n - 1) / 2) 2 :=
      List.mem_range'.mpr ⟨(d - 3) / 2, hj, by omega⟩
    have hd := hall d hmem
    rw [decide_eq_true_eq] at hd
    exact hd (Nat.mod_eq_zero_of_dvd hdvd)
  · intro hall i hmem
    rw [decide_eq_true_eq]
    obtain ⟨j, hj, hje⟩ := List.mem_range'.mp hmem
    intro hmod
    exact hall i (by omega) (by omega) (by omega) (Nat.dvd_of_mod_eq_zero hmod)

/-- The trial-division fallback decides primality exactly. -/
lemma trial_division_eq_prime (n : Nat) : trial_division n = true ↔ Nat.Prime n := by
  rw [trial_division]
  by_cases h2 : n < 2
  · rw [if_pos h2]
    simp only [Bool.false_eq_true, false_iff]
    intro hp
    have := hp.two_le
    omega
  rw [if_neg h2]
  by_cases he : n = 2
  · subst he
    rw [if_pos rfl]
    simpa using Nat.prime_two
  rw [if_neg he]
  by_cases hev : n % 2 = 0
  · rw [if_pos hev]
    simp only [Bool.false_eq_true, false_iff]
    intro hp
    rcases hp.eq_one_or_self_of_dvd 2 (Nat.dvd_of_mod_eq_zero hev) with h | h
    · omega
    · omega
  · rw [if_neg hev, isqrt_eq_sqrt, trial_all_iff]
    constructor
    · intro hall
      by_contra hnp
      have hp : (Nat.minFac n).Prime := Nat.minFac_prime (by omega)
      have hdvd : Nat.minFac n ∣ n := Nat.minFac_dvd n
      have hne2 : Nat.minFac n ≠ 2 := by
        intro h
        rw [h] at hdvd
        exact hev (Nat.mod_eq_zero_of_dvd hdvd)
      have hodd : Nat.minFac n % 2 = 1 := Nat.odd_iff.mp (hp.odd_of_ne_two hne2)
      have h3 : 3 ≤ Nat.minFac n := by
        have := hp.two_le
        omega
      have hsq : Nat.minFac n * Nat.minFac n ≤ n := by
        have hself := Nat.minFac_sq_le_self (n := n) (by omega) hnp
        calc Nat.minFac n * Nat.minFac n = Nat.minFac n ^ 2 := (pow_two _).symm
          _ ≤ n := hself
      have hle : Nat.minFac n ≤ Nat.sqrt n := Nat.le_sqrt.mpr hsq
      exact hall (Nat.minFac n) hodd h3 hle hdvd
    · intro hp d hodd h3 hle hdvd
      rcases hp.eq_one_or_self_of_dvd d hdvd with h | h
      · omega
      · have hlt : Nat.sqrt n < n := Nat.sqrt_lt_self (by omega)
        omega

/-- C4: the single-number primality-test fallback returns false for `n < 2`,
true for `n = 2`, false for even `n > 2`, and for odd `n ≥ 3` returns true
iff `n` has no odd divisor `d` with `3 ≤ d ≤ ⌊√n⌋`; it agrees exactly with
primality. -/
theorem trial_division_matches_spec (n : Nat) :
    (n < 2 → trial_division n = false) ∧
    trial_division 2 = true ∧
    (2 < n → n % 2 = 0 → trial_division n = false) ∧
    (3 ≤ n → n % 2 = 1 →
      (trial_division n = true ↔
        ∀ d, d % 2 = 1 → 3 ≤ d → d ≤ Nat.sqrt n → ¬ d ∣ n)) ∧
    (trial_division n = true ↔ Nat.Prime n) := by
  refine ⟨?_, ?_, ?_, ?_, trial_division_eq_prime n⟩
  · intro h
    rw [trial_division, if_pos h]
  · decide
  · intro h2 hev
    rw [trial_division, if_neg (by omega), if_neg (by omega), if_pos hev]
  · intro h3 hodd
    rw [trial_division, if_neg (by omega), if_neg (by omega), if_neg (by omega), isqrt_eq_sqrt]
    exact trial_all_iff n

/-- Witness for C4 at `n = 9`. -/
theorem trial_division_matches_spec_witness :
    ((9 : Nat) < 2 → trial_division 9 = false) ∧
    trial_division 2 = true ∧
    (2 < (9 : Nat) → (9 : Nat) % 2 = 0 → trial_division 9 = false) ∧
    (3 ≤ (9 : Nat) → (9 : Nat) % 2 = 1 →
      (trial_division 9 = true ↔
        ∀ d, d % 2 = 1 → 3 ≤ d → d ≤ Nat.sqrt 9 → ¬ d ∣ 9)) ∧
    (trial_division 9 = true ↔ Nat.Prime 9) :=
  trial_division_matches_spec 9

/-- Every member of the prime-set list is at least 2, hence its integer cast
never equals a number below 2. -/
lemma suite_any_eq_false_of_lt_two (max_n : Nat) (n : Int) (hn : n < 2) :
    (sieve_of_eratosthenes max_n).any (fun p => (p : Int) == n) = false := by
  rw [Bool.eq_false_iff]
  intro hany
  obtain ⟨p, hmem, hbeq⟩ := List.any_eq_true.mp hany
  have hp2 : 2 ≤ p := ((mem_sieve_list max_n p).mp hmem).1
  have heq : (p : Int) = n := by
    exact_mod_cast beq_iff_eq.mp hbeq
  omega

/-- C6 counterexample: the claim says `is_prime(-5)` fails with an
`InvalidInput` error rather than returning a boolean; the source method
simply evaluates the set membership `-5 in self.prime_set` and returns the
boolean `False`. -/
theorem suite_is_prime_neg_returns_false :
    PrimeVerificationSuite.is_prime 10 (-5) = false := by decide

/-- C6 (amended): `build_sieve(0)` and `build_sieve(1)` yield an empty prime
set, `is_prime(2)` is true (for a table bound of at least 2), `is_prime(1)`
is false, and `is_prime(-5)` returns the boolean false instead of failing
with `InvalidInput`. -/
theorem suite_boundary_behaviour (max_n : Nat) (h : 2 ≤ max_n) :
    sieve_of_eratosthenes 0 = [] ∧
    sieve_of_eratosthenes 1 = [] ∧
    PrimeVerificationSuite.is_prime max_n 2 = true ∧
    PrimeVerificationSuite.is_prime max_n 1 = false ∧
    PrimeVerificationSuite.is_prime max_n (-5) = false := by
  refine ⟨rfl, rfl, ?_, ?_, ?_⟩
  · rw [PrimeVerificationSuite.is_prime, if_pos (by exact_mod_cast h)]
    refine List.any_eq_true.mpr ⟨2, (mem_sieve_list max_n 2).mpr ⟨le_refl 2, h, Nat.prime_two⟩, ?_⟩
    decide
  · rw [PrimeVerificationSuite.is_prime, if_pos (by omega)]
    exact suite_any_eq_false_of_lt_two max_n 1 (by omega)
  · rw [PrimeVerificationSuite.is_prime, if_pos (by omega)]
    exact suite_any_eq_false_of_lt_two max_n (-5) (by omega)

/-- Witness for C6 at `max_n = 10`. -/
theorem suite_boundary_behaviour_witness :
    2 ≤ 10 ∧
    (sieve_of_eratosthenes 0 = [] ∧
      sieve_of_eratosthenes 1 = [] ∧
      PrimeVerificationSuite.is_prime 10 2 = true ∧
      PrimeVerificationSuite.is_prime 10 1 = false ∧
      PrimeVerificationSuite.is_prime 10 (-5) = false) :=
  ⟨by decide, suite_boundary_behaviour 10 (by decide)⟩

/-- C7 counterexample: the claim says a query beyond the table bound fails
with an `OutOfRange` error and is not answered by `is_prime` itself; for a
table built with bound 10 the source answers the query `13` itself (through
its internal trial-division fallback) and returns true. -/
theorem suite_is_prime_beyond_bound_answers :
    PrimeVerificationSuite.is_prime 10 13 = true := by decide

/-- C7 (amended): a query `is_prime(k)` against a table built for bound `n`
raises no error: for `k > n` the method itself falls back to the
single-number trial-division test, and for `k < 0` it returns false via the
set-membership lookup. -/
theorem suite_out_of_range_behaviour (max_n : Nat) (k : Int) :
    ((max_n : Int) < k →
      PrimeVerificationSuite.is_prime max_n k = trial_division k.toNat) ∧
    (k < 0 → PrimeVerificationSuite.is_prime max_n k = false) := by
  constructor
  · intro hk
    rw [PrimeVerificationSuite.is_prime, if_neg (by omega)]
  · intro hk
    rw [PrimeVerificationSuite.is_prime, if_pos (by omega)]
    exact suite_any_eq_false_of_lt_two max_n k (by omega)

/-- Witness for C7 at `max_n = 10`, `k = -7`. -/
theorem suite_out_of_range_behaviour_witness :
    (((10 : Nat) : Int) < -7 →
      PrimeVerificationSuite.is_prime 10 (-7) = trial_division (-7 : Int).toNat) ∧
    ((-7 : Int) < 0 → PrimeVerificationSuite.is_prime 10 (-7) = false) :=
  suite_out_of_range_behaviour 10 (-7)

/-- C3: for every integer `n` (negatives included) and valid filter,
`classify` returns `Excluded` exactly when the non-negative remainder
`r = n mod modulus` is forbidden, `Candidate` otherwise, and `r` always
lies in `[0, modulus)`. -/
theorem classify_excluded_iff (n : Int) (f : ResidueFilter) (hf : f.Valid) :
    ((∃ r, classify n f = ClassificationResult.Excluded r) ↔
      n % f.modulus ∈ f.forbidden) ∧
    (classify n f = ClassificationResult.Candidate ↔
      n % f.modulus ∉ f.forbidden) ∧
    0 ≤ n % f.modulus ∧ n % f.modulus < f.modulus := by
  have hm : f.modulus ≠ 0 := by
    have := hf.1
    omega
  refine ⟨⟨?_, ?_⟩, ⟨?_, ?_⟩, Int.emod_nonneg n hm, Int.emod_lt_of_pos n hf.1⟩
  · rintro ⟨r, hr⟩
    by_cases hc : n % f.modulus ∈ f.forbidden
    · exact hc
    · rw [classify, if_neg hc] at hr
      cases hr
  · intro hc
    exact ⟨n % f.modulus, by rw [classify, if_pos hc]⟩
  · intro hcand hc
    rw [classify, if_pos hc] at hcand
    cases hcand
  · intro hc
    rw [classify, if_neg hc]

/-- Witness for C3 at `n = -5` with the filter `{modulus 69, forbidden {0, 3}}`. -/
theorem classify_excluded_iff_witness :
    (ResidueFilter.mk 69 [0, 3]).Valid ∧
    (((∃ r, classify (-5) (ResidueFilter.mk 69 [0, 3]) = ClassificationResult.Excluded r) ↔
        (-5 : Int) % (ResidueFilter.mk 69 [0, 3]).modulus ∈
          (ResidueFilter.mk 69 [0, 3]).forbidden) ∧
      (classify (-5) (ResidueFilter.mk 69 [0, 3]) = ClassificationResult.Candidate ↔
        (-5 : Int) % (ResidueFilter.mk 69 [0, 3]).modulus ∉
          (ResidueFilter.mk 69 [0, 3]).forbidden) ∧
      0 ≤ (-5 : Int) % (ResidueFilter.mk 69 [0, 3]).modulus ∧
      (-5 : Int) % (ResidueFilter.mk 69 [0, 3]).modulus <
        (ResidueFilter.mk 69 [0, 3]).modulus) :=
  ⟨by decide, classify_excluded_iff (-5) (ResidueFilter.mk 69 [0, 3]) (by decide)⟩

/-- C2: `scan_range` returns a strictly ascending sequence of primes inside
`[low, high]`, each passing the filter, and omits no prime of the range
that passes the filter. -/
theorem scan_range_correct (low high : Nat) (f : ResidueFilter)
    (hlh : low ≤ high) (hf : f.Valid) :
    List.Sorted (· < ·) (scan_range low high f) ∧
    (∀ p ∈ scan_range low high f,
      Nat.Prime p ∧ classify (p : Int) f = ClassificationResult.Candidate ∧
        low ≤ p ∧ p ≤ high) ∧
    (∀ p, low ≤ p → p ≤ high → Nat.Prime p →
      classify (p : Int) f = ClassificationResult.Candidate →
      p ∈ scan_range low high f) := by
  refine ⟨?_, ?_, ?_⟩
  · exact List.Pairwise.sublist (List.filter_sublist _) (List.pairwise_lt_range' low (high + 1 - low))
  · intro p hp
    obtain ⟨hmem, hcond⟩ := List.mem_filter.mp hp
    obtain ⟨hlo, hhi⟩ := List.mem_range'_1.mp hmem
    rw [Bool.and_eq_true, decide_eq_true_eq] at hcond
    exact ⟨(trial_division_eq_prime p).mp hcond.2, hcond.1, hlo, by omega⟩
  · intro p hlo hhi hp hcand
    refine List.mem_filter.mpr ⟨List.mem_range'_1.mpr ⟨hlo, by omega⟩, ?_⟩
    rw [Bool.and_eq_true, decide_eq_true_eq]
    exact ⟨hcand, (trial_division_eq_prime p).mpr hp⟩

/-- Witness for C2 at `low = 0`, `high = 20`, filter `{modulus 69, forbidden {}}`. -/
theorem scan_range_correct_witness :
    (0 ≤ 20 ∧ (ResidueFilter.mk 69 []).Valid) ∧
    (List.Sorted (· < ·) (scan_range 0 20 (ResidueFilter.mk 69 [])) ∧
      (∀ p ∈ scan_range 0 20 (ResidueFilter.mk 69 []),
        Nat.Prime p ∧
          classify (p : Int) (ResidueFilter.mk 69 []) = ClassificationResult.Candidate ∧
          0 ≤ p ∧ p ≤ 20) ∧
      (∀ p, 0 ≤ p → p ≤ 20 → Nat.Prime p →
        classify (p : Int) (ResidueFilter.mk 69 []) = ClassificationResult.Candidate →
        p ∈ scan_range 0 20 (ResidueFilter.mk 69 []))) :=
  ⟨⟨by decide, by decide⟩, scan_range_correct 0 20 (ResidueFilter.mk 69 []) (by decide) (by decide)⟩

/-- C5: scanning `[0, 20]` with modulus 69 and an empty forbidden set
returns exactly the primes `[2, 3, 5, 7, 11, 13, 17, 19]`. -/
theorem scan_range_zero_twenty :
    scan_range 0 20 (ResidueFilter.mk 69 []) = [2, 3, 5, 7, 11, 13, 17, 19] := by
  decide

/-- C8: for every prime `p`, `dart69_filter p` accepts exactly when
`p ∉ {2, 5}`: since `69 = 3 · 23`, a sector divisible by 3 or 23 forces
`p` itself divisible by 3 or 23, and those primes (3 and 23) are exempt,
so only the last-digit filter bites — rejecting exactly 2 and 5. -/
theorem dart69_filter_prime_iff (p : Nat) (hp : Nat.Prime p) :
    dart69_filter p = true ↔ (p ≠ 2 ∧ p ≠ 5) := by
  by_cases h2 : p = 2
  · subst h2
    decide
  by_cases h3 : p = 3
  · subst h3
    decide
  by_cases h5 : p = 5
  · subst h5
    decide
  by_cases h23 : p = 23
  · subst h23
    decide
  have hmod3 : p % 3 ≠ 0 := by
    intro h
    exact h3 ((Nat.prime_dvd_prime_iff_eq (by norm_num) hp).mp
      (Nat.dvd_of_mod_eq_zero h)).symm
  have hmod23 : p % 23 ≠ 0 := by
    intro h
    exact h23 ((Nat.prime_dvd_prime_iff_eq (by norm_num) hp).mp
      (Nat.dvd_of_mod_eq_zero h)).symm
  have hmod5 : p % 5 ≠ 0 := by
    intro h
    exact h5 ((Nat.prime_dvd_prime_iff_eq (by norm_num) hp).mp
      (Nat.dvd_of_mod_eq_zero h)).symm
  have hs3 : p % 69 % 3 = p % 3 := Nat.mod_mod_of_dvd p (by norm_num)
  have hs23 : p % 69 % 23 = p % 23 := Nat.mod_mod_of_dvd p (by norm_num)
  have hodd : p % 2 = 1 := Nat.odd_iff.mp (hp.odd_of_ne_two h2)
  have hd2 : p % 10 % 2 = p % 2 := Nat.mod_mod_of_dvd p (by norm_num)
  have hd5 : p % 10 % 5 = p % 5 := Nat.mod_mod_of_dvd p (by norm_num)
  have hdigit : p % 10 = 1 ∨ p % 10 = 3 ∨ p % 10 = 7 ∨ p % 10 = 9 := by omega
  have hcond : ((p % 69 % 3 == 0 || p % 69 % 23 == 0) && !(p == 3 || p == 23)) = false := by
    rw [hs3, hs23]
    simp only [Bool.and_eq_false_iff, Bool.or_eq_false_iff, beq_eq_false_iff_ne]
    left
    exact ⟨hmod3, hmod23⟩
  rw [dart69_filter, if_neg (by rw [hcond]; exact Bool.false_ne_true)]
  simp only [Bool.or_eq_true, beq_iff_eq]
  constructor
  · intro _
    exact ⟨h2, h5⟩
  · intro _
    omega

/-- Witness for C8 at `p = 7`. -/
theorem dart69_filter_prime_iff_witness :
    Nat.Prime 7 ∧ (dart69_filter 7 = true ↔ ((7 : Nat) ≠ 2 ∧ (7 : Nat) ≠ 5)) :=
  ⟨by norm_num, dart69_filter_prime_iff 7 (by norm_num)⟩

/-- C9: every element of `sieve_dimension` ends in decimal digit 1, 3, 7 or
9, whatever the scanned range; in particular 2 and 5 never appear. -/
theorem sieve_dimension_last_digits (start stop m : Nat)
    (hm : m ∈ sieve_dimension start stop) :
    (m % 10 = 1 ∨ m % 10 = 3 ∨ m % 10 = 7 ∨ m % 10 = 9) ∧ m ≠ 2 ∧ m ≠ 5 := by
  obtain ⟨hmem, hcond⟩ := List.mem_filter.mp hm
  rw [Bool.and_eq_true] at hcond
  have hf := hcond.1
  rw [dart69_filter] at hf
  have hdigit : (m % 10 == 1 || m % 10 == 3 || m % 10 == 7 || m % 10 == 9) = true := by
    by_cases hc : ((m % 69 % 3 == 0 || m % 69 % 23 == 0) && !(m == 3 || m == 23)) = true
    · rw [if_pos hc] at hf
      cases hf
    · rw [if_neg hc] at hf
      exact hf
  simp only [Bool.or_eq_true, beq_iff_eq] at hdigit
  exact ⟨by omega, by omega, by omega⟩

/-- Witness for C9 at the range `[2, 20]` and element `m = 7`. -/
theorem sieve_dimension_last_digits_witness :
    7 ∈ sieve_dimension 2 20 ∧
    (((7 : Nat) % 10 = 1 ∨ (7 : Nat) % 10 = 3 ∨ (7 : Nat) % 10 = 7 ∨ (7 : Nat) % 10 = 9) ∧
      (7 : Nat) ≠ 2 ∧ (7 : Nat) ≠ 5) :=
  ⟨by decide, sieve_dimension_last_digits 2 20 7 (by decide)⟩

/-- C10 counterexample: at `n = 6 ≥ 5` the two prechecks return opposite
verdicts — `dart69_prime_checker.py` rejects 6 as an even number, while the
optimized checker computes the dimensional position `(6 - 4) % 69 = 2`,
which is allowed. -/
theorem dart69_prechecks_disagree_at_six :
    ¬ (dart69_precheck 6 = dart69_precheck_optimized 6) := by decide

/-- C10 (amended): the two forbidden-zone prechecks do not compute the same
verdict on all `n ≥ 5`: they disagree at `n = 6` (checker 1 rejects even
numbers, the optimized checker's relative position 2 passes) and at
`n = 7` (checker 1's absolute position 7 passes, the optimized checker's
relative position 3 is forbidden), while agreeing at e.g. `n = 5`. -/
theorem dart69_prechecks_differ :
    dart69_precheck 6 = false ∧ dart69_precheck_optimized 6 = true ∧
    dart69_precheck 7 = true ∧ dart69_precheck_optimized 7 = false ∧
    dart69_precheck 5 = dart69_precheck_optimized 5 := by decide
